import Mathlib

/-!
Verification of the `simple_units` compile-time unit-of-measure library
(`src/units.hpp`).  The embedding models the value-level behaviour of the
library at an integral representation: counts are unbounded integers (a
valid instantiation of the `Rep` template parameter, which only needs the
arithmetic operators), C++ `/` and `%` on signed integers are the
truncating operations `Int.tdiv` and `Int.tmod`, and a `std::ratio`
instantiation is modelled by its normalized `num`/`den` member pair.
-/

namespace SU

/-- Models `su::detail::abs` (src/units.hpp lines 259-261). -/
def cppAbs (a : Int) : Int := if a < 0 then -a else a

theorem cppAbs_eq_natAbs (a : Int) : cppAbs a = (a.natAbs : Int) := by
  unfold cppAbs
  omega

theorem cppAbs_of_pos {a : Int} (h : 0 < a) : cppAbs a = a := by
  unfold cppAbs
  omega

theorem natAbs_tmod (a b : Int) : (Int.tmod a b).natAbs = a.natAbs % b.natAbs := by
  cases a with
  | ofNat m =>
    cases b with
    | ofNat n => rfl
    | negSucc n => rfl
  | negSucc m =>
    cases b with
    | ofNat n =>
      show (-(Int.ofNat (m.succ % n))).natAbs = _
      rw [Int.natAbs_neg]
      rfl
    | negSucc n =>
      show (-(Int.ofNat (m.succ % n.succ))).natAbs = _
      rw [Int.natAbs_neg]
      rfl

/-- Models `su::detail::gcd` (src/units.hpp lines 263-271); the C++ `%`
on signed integers is the truncating remainder `Int.tmod`. -/
def detailGcd (a b : Int) : Int :=
  if b = 0 then cppAbs a
  else if a = 0 then cppAbs b
  else detailGcd b (Int.tmod a b)
termination_by b.natAbs
decreasing_by
  rename_i hb _
  rw [natAbs_tmod]
  exact Nat.mod_lt _ (Int.natAbs_pos.mpr hb)

/-- The source's hand-rolled gcd agrees with the mathematical gcd. -/
theorem detailGcd_eq_gcd (a b : Int) : detailGcd a b = (Int.gcd a b : Int) := by
  unfold detailGcd
  split
  · rename_i hb
    subst hb
    rw [cppAbs_eq_natAbs, Int.gcd, Int.natAbs_zero, Nat.gcd_zero_right]
  · split
    · rename_i ha
      subst ha
      rw [cppAbs_eq_natAbs, Int.gcd, Int.natAbs_zero, Nat.gcd_zero_left]
    · rename_i hb ha
      rw [detailGcd_eq_gcd b (Int.tmod a b)]
      show ((Int.gcd b (Int.tmod a b) : Nat) : Int) = _
      rw [Int.gcd, Int.gcd, natAbs_tmod,
        Nat.gcd_comm b.natAbs, ← Nat.gcd_rec, Nat.gcd_comm]
termination_by b.natAbs
decreasing_by
  rename_i hb _
  rw [natAbs_tmod]
  exact Nat.mod_lt _ (Int.natAbs_pos.mpr hb)

/-- Models a `std::ratio` instantiation by its `num`/`den` static members. -/
structure SRatio where
  num : Int
  den : Int
deriving DecidableEq, Repr

/-- Normalization performed by `std::ratio<n, d>` on its members:
`num = n * sign(d) / gcd(n, d)` and `den = abs(d) / gcd(n, d)`. -/
def ratioNorm (n d : Int) : SRatio :=
  ⟨(n * Int.sign d).tdiv (Int.gcd n d), (cppAbs d).tdiv (Int.gcd n d)⟩

/-- Models `std::ratio_multiply` (the normalized product ratio). -/
def ratioMultiply (r1 r2 : SRatio) : SRatio := ratioNorm (r1.num * r2.num) (r1.den * r2.den)

/-- Models `std::ratio_divide` (the normalized quotient ratio). -/
def ratioDivide (r1 r2 : SRatio) : SRatio := ratioNorm (r1.num * r2.den) (r1.den * r2.num)

/-- Invariant of every `std::ratio` member pair: positive denominator and
reduced to lowest terms. -/
def SRatio.Normal (r : SRatio) : Prop := 0 < r.den ∧ Int.gcd r.num r.den = 1

/-- Positive rational, as the data model requires of every scale. -/
def SRatio.IsPos (r : SRatio) : Prop := 0 < r.num ∧ 0 < r.den

instance (r : SRatio) : Decidable r.Normal := by
  unfold SRatio.Normal
  infer_instance

instance (r : SRatio) : Decidable r.IsPos := by
  unfold SRatio.IsPos
  infer_instance

/-- Decomposition of `ratioNorm` on a positive pair: both inputs are
`gcd * cofactor`, the result is the coprime cofactor pair. -/
theorem ratioNorm_pos_spec {n d : Int} (hn : 0 < n) (hd : 0 < d) :
    ∃ g k m : Int, 0 < g ∧ 0 < k ∧ 0 < m ∧
      g = (Int.gcd n d : Int) ∧ n = g * k ∧ d = g * m ∧
      ratioNorm n d = ⟨k, m⟩ ∧ Int.gcd k m = 1 := by
  have hg : 0 < (Int.gcd n d : Int) := by
    exact_mod_cast Int.gcd_pos_of_ne_zero_left d (by omega : n ≠ 0)
  have hgne : (Int.gcd n d : Int) ≠ 0 := by omega
  obtain ⟨k, hk⟩ : ((Int.gcd n d : Int)) ∣ n := Int.gcd_dvd_left
  obtain ⟨m, hm⟩ : ((Int.gcd n d : Int)) ∣ d := Int.gcd_dvd_right
  have hkpos : 0 < k := by nlinarith
  have hmpos : 0 < m := by nlinarith
  have t1 : n.tdiv (Int.gcd n d : Int) = k := by
    nth_rewrite 1 [hk]
    exact Int.mul_tdiv_cancel_left _ hgne
  have t2 : d.tdiv (Int.gcd n d : Int) = m := by
    nth_rewrite 1 [hm]
    exact Int.mul_tdiv_cancel_left _ hgne
  refine ⟨(Int.gcd n d : Int), k, m, hg, hkpos, hmpos, rfl, hk, hm, ?_, ?_⟩
  · unfold ratioNorm
    rw [Int.sign_eq_one_of_pos hd, mul_one, cppAbs_of_pos hd, t1, t2]
  · have hcop := Int.gcd_div_gcd_div_gcd (i := n) (j := d)
      (by exact_mod_cast hg)
    have e1 : n / (Int.gcd n d : Int) = k := by
      nth_rewrite 1 [hk]
      exact Int.mul_ediv_cancel_left _ hgne
    have e2 : d / (Int.gcd n d : Int) = m := by
      nth_rewrite 1 [hm]
      exact Int.mul_ediv_cancel_left _ hgne
    rw [e1, e2] at hcop
    exact hcop

theorem ratioNorm_swap {n d : Int} (hn : 0 < n) (hd : 0 < d) :
    ratioNorm d n = ⟨(ratioNorm n d).den, (ratioNorm n d).num⟩ := by
  unfold ratioNorm
  rw [Int.sign_eq_one_of_pos hd, Int.sign_eq_one_of_pos hn, mul_one, mul_one,
    cppAbs_of_pos hd, cppAbs_of_pos hn, Int.gcd_comm d n]

theorem ratioNorm_of_dvd {a b : Int} (ha : 0 < a) (hb : 0 < b) (hab : a ∣ b) :
    ratioNorm a b = ⟨1, b.tdiv a⟩ := by
  unfold ratioNorm
  rw [Int.sign_eq_one_of_pos hb, mul_one, cppAbs_of_pos hb,
    Int.gcd_eq_left hab, Int.natAbs_of_nonneg (le_of_lt ha),
    Int.tdiv_self (ne_of_gt ha)]

theorem ratioNorm_of_normal {r : SRatio} (h : r.Normal) :
    ratioNorm r.num r.den = r := by
  unfold ratioNorm
  rw [Int.sign_eq_one_of_pos h.1, mul_one, cppAbs_of_pos h.1, h.2]
  rw [Nat.cast_one, Int.tdiv_one, Int.tdiv_one]

theorem ratioNorm_normal_pos {n d : Int} (hn : 0 < n) (hd : 0 < d) :
    (ratioNorm n d).Normal ∧ (ratioNorm n d).IsPos := by
  obtain ⟨g, k, m, hg, hk, hm, _, _, _, hnorm, hcop⟩ := ratioNorm_pos_spec hn hd
  rw [hnorm]
  exact ⟨⟨hm, hcop⟩, hk, hm⟩

theorem ratioNorm_val {n d : Int} (hn : 0 < n) (hd : 0 < d) :
    ((ratioNorm n d).num : ℚ) / ((ratioNorm n d).den : ℚ) = (n : ℚ) / (d : ℚ) := by
  obtain ⟨g, k, m, hg, hk, hm, _, hkeq, hmeq, hnorm, _⟩ := ratioNorm_pos_spec hn hd
  have h1 : (ratioNorm n d).num = k := by rw [hnorm]
  have h2 : (ratioNorm n d).den = m := by rw [hnorm]
  rw [h1, h2, hkeq, hmeq]
  push_cast
  rw [mul_div_mul_left _ _ (by exact_mod_cast ne_of_gt hg)]

/-- Value-level model of `su::unit<Tag, Rep, Scale>` at an integral
representation: the normalized member pair of the compile-time `Scale`,
plus the single stored count `m_val`. -/
structure UnitQ where
  scale : SRatio
  count : Int
deriving DecidableEq, Repr

/-- Models `su::unit_cast<To>` (src/units.hpp lines 115-121) between two
integral representations: `R = ratio_divide<To::scale, Scale>`, widen the
count, then compute `(v * R::den) / R::num` with truncating division. -/
def unitCast (toScale : SRatio) (u : UnitQ) : UnitQ :=
  ⟨toScale,
    (u.count * (ratioDivide toScale u.scale).den).tdiv (ratioDivide toScale u.scale).num⟩

/-- Models the scale member of the `std::common_type` specialization for
two `su::unit` types (src/units.hpp lines 286-292):
`ratio<gcd(N1, N2), (D1 / gcd(D1, D2)) * D2>` with `su::detail::gcd` and
truncating `/`, normalized by `std::ratio`. -/
def commonScale (s1 s2 : SRatio) : SRatio :=
  ratioNorm (detailGcd s1.num s2.num) ((s1.den.tdiv (detailGcd s1.den s2.den)) * s2.den)

/-- Physical value of a quantity: count times scale, as an exact rational. -/
def physVal (u : UnitQ) : ℚ := (u.count : ℚ) * ((u.scale.num : ℚ) / (u.scale.den : ℚ))

/-- The deduced common scale is `gcd(N1,N2) / lcm(D1,D2)`, already in
lowest terms, positive. -/
theorem commonScale_spec {s1 s2 : SRatio} (h1 : s1.Normal) (h2 : s2.Normal)
    (p1 : s1.IsPos) (p2 : s2.IsPos) :
    commonScale s1 s2 =
      ⟨(Int.gcd s1.num s2.num : Int), (Int.lcm s1.den s2.den : Int)⟩ ∧
    (commonScale s1 s2).Normal ∧ (commonScale s1 s2).IsPos := by
  have hgd : 0 < (Int.gcd s1.den s2.den : Int) := by
    exact_mod_cast Int.gcd_pos_of_ne_zero_left s2.den (ne_of_gt p1.2)
  have hgdne : (Int.gcd s1.den s2.den : Int) ≠ 0 := ne_of_gt hgd
  obtain ⟨k, hk⟩ : ((Int.gcd s1.den s2.den : Int)) ∣ s1.den := Int.gcd_dvd_left
  have ht : s1.den.tdiv (Int.gcd s1.den s2.den : Int) = k := by
    nth_rewrite 1 [hk]
    exact Int.mul_tdiv_cancel_left _ hgdne
  have hprod : (Int.gcd s1.den s2.den : Int) * (Int.lcm s1.den s2.den : Int)
      = s1.den * s2.den := by
    rw [← Nat.cast_mul, Int.gcd_mul_lcm]
    exact Int.natAbs_of_nonneg (le_of_lt (mul_pos p1.2 p2.2))
  have hlcm : k * s2.den = (Int.lcm s1.den s2.den : Int) := by
    apply mul_left_cancel₀ hgdne
    rw [hprod, ← mul_assoc, ← hk]
  have hgn : 0 < (Int.gcd s1.num s2.num : Int) := by
    exact_mod_cast Int.gcd_pos_of_ne_zero_left s2.num (ne_of_gt p1.1)
  have hlpos : 0 < (Int.lcm s1.den s2.den : Int) := by
    have := Int.lcm_ne_zero (ne_of_gt p1.2) (ne_of_gt p2.2)
    have h0 : 0 ≤ (Int.lcm s1.den s2.den : Int) := Int.natCast_nonneg _
    omega
  have hcop1 : Nat.Coprime s1.num.natAbs s1.den.natAbs := by
    show Nat.gcd _ _ = 1
    rw [← Int.gcd_eq_natAbs]
    exact h1.2
  have hcop2 : Nat.Coprime s2.num.natAbs s2.den.natAbs := by
    show Nat.gcd _ _ = 1
    rw [← Int.gcd_eq_natAbs]
    exact h2.2
  have k1 : Nat.Coprime (Nat.gcd s1.num.natAbs s2.num.natAbs) s1.den.natAbs :=
    Nat.Coprime.coprime_dvd_left (Nat.gcd_dvd_left _ _) hcop1
  have k2 : Nat.Coprime (Nat.gcd s1.num.natAbs s2.num.natAbs) s2.den.natAbs :=
    Nat.Coprime.coprime_dvd_left (Nat.gcd_dvd_right _ _) hcop2
  have hlcmdvd : Nat.lcm s1.den.natAbs s2.den.natAbs ∣ s1.den.natAbs * s2.den.natAbs :=
    Nat.lcm_dvd (Nat.dvd_mul_right _ _) (Nat.dvd_mul_left _ _)
  have hcop : Nat.Coprime (Nat.gcd s1.num.natAbs s2.num.natAbs)
      (Nat.lcm s1.den.natAbs s2.den.natAbs) :=
    Nat.Coprime.coprime_dvd_right hlcmdvd (Nat.Coprime.mul_right k1 k2)
  have hnormal : (⟨(Int.gcd s1.num s2.num : Int), (Int.lcm s1.den s2.den : Int)⟩ :
      SRatio).Normal := by
    refine ⟨hlpos, ?_⟩
    rw [Int.gcd_natCast_natCast]
    rw [Int.gcd_eq_natAbs, Int.lcm_def]
    exact hcop
  have heq : commonScale s1 s2 =
      ⟨(Int.gcd s1.num s2.num : Int), (Int.lcm s1.den s2.den : Int)⟩ := by
    unfold commonScale
    rw [detailGcd_eq_gcd, detailGcd_eq_gcd, ht, hlcm]
    exact ratioNorm_of_normal hnormal
  rw [heq]
  exact ⟨rfl, hnormal, hgn, hlpos⟩

/-- Casting to the common scale multiplies the count by an exact positive
integer: the ratio of the source scale to the common scale. -/
theorem unitCast_common {s1 s2 : SRatio} (h1 : s1.Normal) (h2 : s2.Normal)
    (p1 : s1.IsPos) (p2 : s2.IsPos) :
    ∃ kq : Int, 0 < kq ∧
      kq * ((commonScale s1 s2).num * s1.den) = (commonScale s1 s2).den * s1.num ∧
      ∀ c : Int, unitCast (commonScale s1 s2) ⟨s1, c⟩ = ⟨commonScale s1 s2, c * kq⟩ := by
  obtain ⟨hcs, hcsn, hcsp⟩ := commonScale_spec h1 h2 p1 p2
  have hG : 0 < (commonScale s1 s2).num := hcsp.1
  have hL : 0 < (commonScale s1 s2).den := hcsp.2
  have hGdvd : (commonScale s1 s2).num ∣ s1.num := by
    rw [hcs]
    exact Int.gcd_dvd_left
  have hLdvd : s1.den ∣ (commonScale s1 s2).den := by
    rw [hcs]
    exact Int.dvd_lcm_left
  have hdvd : (commonScale s1 s2).num * s1.den ∣ (commonScale s1 s2).den * s1.num := by
    rw [mul_comm (commonScale s1 s2).den s1.num]
    exact mul_dvd_mul hGdvd hLdvd
  obtain ⟨kq, hkq⟩ := hdvd
  have hpd : 0 < (commonScale s1 s2).num * s1.den := mul_pos hG p1.2
  have hkpos : 0 < kq := by nlinarith [mul_pos hL p1.1]
  refine ⟨kq, hkpos, by rw [hkq]; ring, ?_⟩
  intro c
  unfold unitCast ratioDivide
  simp only
  have hR : ratioNorm ((commonScale s1 s2).num * s1.den)
      ((commonScale s1 s2).den * s1.num) =
      ⟨1, ((commonScale s1 s2).den * s1.num).tdiv ((commonScale s1 s2).num * s1.den)⟩ :=
    ratioNorm_of_dvd hpd (mul_pos hL p1.1) ⟨kq, hkq⟩
  have htd : ((commonScale s1 s2).den * s1.num).tdiv ((commonScale s1 s2).num * s1.den)
      = kq := by
    rw [hkq]
    exact Int.mul_tdiv_cancel_left _ (ne_of_gt hpd)
  rw [hR, htd]
  show (⟨_, (c * kq).tdiv 1⟩ : UnitQ) = _
  rw [Int.tdiv_one]

/-- Casting to the common scale preserves the physical value exactly. -/
theorem physVal_unitCast_common {s1 s2 : SRatio} (h1 : s1.Normal) (h2 : s2.Normal)
    (p1 : s1.IsPos) (p2 : s2.IsPos) (c : Int) :
    physVal (unitCast (commonScale s1 s2) ⟨s1, c⟩) = physVal ⟨s1, c⟩ := by
  obtain ⟨kq, hkpos, heq, hcast⟩ := unitCast_common h1 h2 p1 p2
  obtain ⟨_, hcsn, hcsp⟩ := commonScale_spec h1 h2 p1 p2
  rw [hcast c]
  unfold physVal
  simp only
  have hd1 : ((s1.den : ℚ)) ≠ 0 := by exact_mod_cast ne_of_gt p1.2
  have hd2 : (((commonScale s1 s2).den : ℚ)) ≠ 0 := by exact_mod_cast ne_of_gt hcsp.2
  have heqQ : (kq : ℚ) * ((commonScale s1 s2).num * s1.den)
      = (commonScale s1 s2).den * s1.num := by exact_mod_cast heq
  field_simp
  linear_combination (c : ℚ) * heqQ

theorem physVal_eq_iff {s : SRatio} (hp : s.IsPos) (x y : Int) :
    physVal ⟨s, x⟩ = physVal ⟨s, y⟩ ↔ x = y := by
  unfold physVal
  simp only
  have hr : (0 : ℚ) < (s.num : ℚ) / (s.den : ℚ) := by
    apply div_pos
    · exact_mod_cast hp.1
    · exact_mod_cast hp.2
  constructor
  · intro h
    exact_mod_cast mul_right_cancel₀ (ne_of_gt hr) h
  · intro h
    rw [h]

theorem physVal_lt_iff {s : SRatio} (hp : s.IsPos) (x y : Int) :
    physVal ⟨s, x⟩ < physVal ⟨s, y⟩ ↔ x < y := by
  unfold physVal
  simp only
  have hr : (0 : ℚ) < (s.num : ℚ) / (s.den : ℚ) := by
    apply div_pos
    · exact_mod_cast hp.1
    · exact_mod_cast hp.2
  rw [mul_lt_mul_right hr]
  exact Int.cast_lt

/-- The count computation exactly as the spec words it: reduce
(source scale) / (target scale) to lowest terms `num/den`, widen the
count, multiply by `num`, then truncating-divide by `den`. -/
def castSpecCount (fromScale toScale : SRatio) (c : Int) : Int :=
  (c * (ratioNorm (fromScale.num * toScale.den) (fromScale.den * toScale.num)).num).tdiv
    (ratioNorm (fromScale.num * toScale.den) (fromScale.den * toScale.num)).den

/-- Claim C1: for every source quantity and target type of the same tag,
`unit_cast` produces the target scale and the count obtained by widening,
multiplying by the numerator of the reduced ratio (source scale)/(target
scale), then truncating-dividing by its denominator — multiplication
before division. -/
theorem C1_unit_cast_formula {s1 s2 : SRatio} (h1 : s1.Normal) (h2 : s2.Normal)
    (p1 : s1.IsPos) (p2 : s2.IsPos) (c : Int) :
    unitCast s2 ⟨s1, c⟩ = ⟨s2, castSpecCount s1 s2 c⟩ := by
  unfold unitCast castSpecCount ratioDivide
  simp only
  have hsw := ratioNorm_swap (mul_pos p2.1 p1.2) (mul_pos p2.2 p1.1)
  rw [show s1.num * s2.den = s2.den * s1.num from mul_comm _ _,
    show s1.den * s2.num = s2.num * s1.den from mul_comm _ _, hsw]

/-- Witness for C1 at kilo source scale, unit target scale, count 7. -/
theorem C1_unit_cast_formula_witness :
    unitCast ⟨1, 1⟩ ⟨⟨1000, 1⟩, 7⟩ = ⟨⟨1, 1⟩, castSpecCount ⟨1000, 1⟩ ⟨1, 1⟩ 7⟩ ∧
    castSpecCount ⟨1000, 1⟩ ⟨1, 1⟩ 7 = 7000 :=
  ⟨C1_unit_cast_formula (by decide) (by decide) (by decide) (by decide) 7, by decide⟩

/-- Claim C2: for two scales `N1/D1`, `N2/D2` in lowest terms, the
deduced common scale is `gcd(N1,N2)/lcm(D1,D2)`; each operand scale
divided by the common scale is a positive integer, and `unit_cast` from
either operand type to the common type multiplies the stored count by
exactly that integer (lossless for integral representations). -/
theorem C2_common_type_lossless {s1 s2 : SRatio} (h1 : s1.Normal) (h2 : s2.Normal)
    (p1 : s1.IsPos) (p2 : s2.IsPos) :
    commonScale s1 s2 =
      ⟨(Int.gcd s1.num s2.num : Int), (Int.lcm s1.den s2.den : Int)⟩ ∧
    (∃ k1 : Int, 0 < k1 ∧
      s1.num * (commonScale s1 s2).den = k1 * ((commonScale s1 s2).num * s1.den) ∧
      ∀ c : Int, unitCast (commonScale s1 s2) ⟨s1, c⟩ = ⟨commonScale s1 s2, c * k1⟩) ∧
    (∃ k2 : Int, 0 < k2 ∧
      s2.num * (commonScale s1 s2).den = k2 * ((commonScale s1 s2).num * s2.den) ∧
      ∀ c : Int, unitCast (commonScale s1 s2) ⟨s2, c⟩ = ⟨commonScale s1 s2, c * k2⟩) := by
  have hsym : commonScale s2 s1 = commonScale s1 s2 := by
    rw [(commonScale_spec h1 h2 p1 p2).1, (commonScale_spec h2 h1 p2 p1).1,
      Int.gcd_comm, Int.lcm_comm]
  refine ⟨(commonScale_spec h1 h2 p1 p2).1, ?_, ?_⟩
  · obtain ⟨k1, hk1, heq, hcast⟩ := unitCast_common h1 h2 p1 p2
    exact ⟨k1, hk1, by linarith [heq], hcast⟩
  · obtain ⟨k2, hk2, heq, hcast⟩ := unitCast_common h2 h1 p2 p1
    rw [hsym] at heq hcast
    exact ⟨k2, hk2, by linarith [heq], hcast⟩

/-- Witness for C2 at scales 1/1 and 1000/1. -/
theorem C2_common_type_lossless_witness :
    commonScale ⟨1, 1⟩ ⟨1000, 1⟩ =
      ⟨(Int.gcd 1 1000 : Int), (Int.lcm 1 1 : Int)⟩ ∧
    (∃ k1 : Int, 0 < k1 ∧
      (1 : Int) * (commonScale ⟨1, 1⟩ ⟨1000, 1⟩).den
        = k1 * ((commonScale ⟨1, 1⟩ ⟨1000, 1⟩).num * 1) ∧
      ∀ c : Int, unitCast (commonScale ⟨1, 1⟩ ⟨1000, 1⟩) ⟨⟨1, 1⟩, c⟩
        = ⟨commonScale ⟨1, 1⟩ ⟨1000, 1⟩, c * k1⟩) ∧
    (∃ k2 : Int, 0 < k2 ∧
      (1000 : Int) * (commonScale ⟨1, 1⟩ ⟨1000, 1⟩).den
        = k2 * ((commonScale ⟨1, 1⟩ ⟨1000, 1⟩).num * 1) ∧
      ∀ c : Int, unitCast (commonScale ⟨1, 1⟩ ⟨1000, 1⟩) ⟨⟨1000, 1⟩, c⟩
        = ⟨commonScale ⟨1, 1⟩ ⟨1000, 1⟩, c * k2⟩) :=
  C2_common_type_lossless (by decide) (by decide) (by decide) (by decide)

/-- Models `operator+` on two same-tag quantities (src/units.hpp lines
207-211): cast both operands to the deduced common type, add the counts. -/
def unitAdd (a b : UnitQ) : UnitQ :=
  ⟨commonScale a.scale b.scale,
    (unitCast (commonScale a.scale b.scale) a).count +
    (unitCast (commonScale a.scale b.scale) b).count⟩

/-- Models `operator-` on two same-tag quantities (src/units.hpp lines
213-217). -/
def unitSub (a b : UnitQ) : UnitQ :=
  ⟨commonScale a.scale b.scale,
    (unitCast (commonScale a.scale b.scale) a).count -
    (unitCast (commonScale a.scale b.scale) b).count⟩

/-- Models `operator%` on two same-tag quantities (src/units.hpp lines
194-198); C++ `%` on signed integers is `Int.tmod`. -/
def unitModQ (a b : UnitQ) : UnitQ :=
  ⟨commonScale a.scale b.scale,
    Int.tmod (unitCast (commonScale a.scale b.scale) a).count
      (unitCast (commonScale a.scale b.scale) b).count⟩

/-- Models `operator==` on two same-tag quantities (src/units.hpp lines
219-223): compare the counts after casting both to the common type. -/
def unitEq (a b : UnitQ) : Bool :=
  (unitCast (commonScale a.scale b.scale) a).count ==
  (unitCast (commonScale a.scale b.scale) b).count

/-- Models `operator<=>` on two same-tag quantities (src/units.hpp lines
225-229): three-way comparison of the counts after casting both to the
common type. -/
def unitCmp (a b : UnitQ) : Ordering :=
  compare (unitCast (commonScale a.scale b.scale) a).count
    (unitCast (commonScale a.scale b.scale) b).count

theorem commonScale_comm {s1 s2 : SRatio} (h1 : s1.Normal) (h2 : s2.Normal)
    (p1 : s1.IsPos) (p2 : s2.IsPos) :
    commonScale s2 s1 = commonScale s1 s2 := by
  rw [(commonScale_spec h1 h2 p1 p2).1, (commonScale_spec h2 h1 p2 p1).1,
    Int.gcd_comm, Int.lcm_comm]

theorem physVal_unitCast_common2 {s1 s2 : SRatio} (h1 : s1.Normal) (h2 : s2.Normal)
    (p1 : s1.IsPos) (p2 : s2.IsPos) (c : Int) :
    physVal (unitCast (commonScale s1 s2) ⟨s2, c⟩) = physVal ⟨s2, c⟩ := by
  rw [← commonScale_comm h1 h2 p1 p2]
  exact physVal_unitCast_common h2 h1 p2 p1 c

theorem physVal_add (s : SRatio) (x y : Int) :
    physVal ⟨s, x + y⟩ = physVal ⟨s, x⟩ + physVal ⟨s, y⟩ := by
  unfold physVal
  simp only
  push_cast
  ring

/-- Claim C3: `a + b` produces the deduced common type whose count is the
sum of the two casted counts, and for integral representations its
physical value is the exact sum of the operands' physical values; in
particular watt(500) + kilowatt(2) == watt(2500). -/
theorem C3_addition_exact {s1 s2 : SRatio} (h1 : s1.Normal) (h2 : s2.Normal)
    (p1 : s1.IsPos) (p2 : s2.IsPos) (c1 c2 : Int) :
    ((unitAdd ⟨s1, c1⟩ ⟨s2, c2⟩).scale = commonScale s1 s2 ∧
     (unitAdd ⟨s1, c1⟩ ⟨s2, c2⟩).count =
       (unitCast (commonScale s1 s2) ⟨s1, c1⟩).count +
       (unitCast (commonScale s1 s2) ⟨s2, c2⟩).count) ∧
    physVal (unitAdd ⟨s1, c1⟩ ⟨s2, c2⟩) = physVal ⟨s1, c1⟩ + physVal ⟨s2, c2⟩ ∧
    unitEq (unitAdd ⟨⟨1, 1⟩, 500⟩ ⟨⟨1000, 1⟩, 2⟩) ⟨⟨1, 1⟩, 2500⟩ = true := by
  refine ⟨⟨rfl, rfl⟩, ?_, ?_⟩
  · show physVal ⟨commonScale s1 s2, _ + _⟩ = _
    rw [physVal_add]
    have e1 : physVal ⟨commonScale s1 s2, (unitCast (commonScale s1 s2) ⟨s1, c1⟩).count⟩
        = physVal (unitCast (commonScale s1 s2) ⟨s1, c1⟩) := rfl
    have e2 : physVal ⟨commonScale s1 s2, (unitCast (commonScale s1 s2) ⟨s2, c2⟩).count⟩
        = physVal (unitCast (commonScale s1 s2) ⟨s2, c2⟩) := rfl
    rw [e1, e2, physVal_unitCast_common h1 h2 p1 p2,
      physVal_unitCast_common2 h1 h2 p1 p2]
  · simp only [unitEq, unitAdd, commonScale, detailGcd_eq_gcd]
    decide

/-- Witness for C3 at the watt/kilowatt scales with counts 500 and 2. -/
theorem C3_addition_exact_witness :
    ((unitAdd ⟨⟨1, 1⟩, 500⟩ ⟨⟨1000, 1⟩, 2⟩).scale = commonScale ⟨1, 1⟩ ⟨1000, 1⟩ ∧
     (unitAdd ⟨⟨1, 1⟩, 500⟩ ⟨⟨1000, 1⟩, 2⟩).count =
       (unitCast (commonScale ⟨1, 1⟩ ⟨1000, 1⟩) ⟨⟨1, 1⟩, 500⟩).count +
       (unitCast (commonScale ⟨1, 1⟩ ⟨1000, 1⟩) ⟨⟨1000, 1⟩, 2⟩).count) ∧
    physVal (unitAdd ⟨⟨1, 1⟩, 500⟩ ⟨⟨1000, 1⟩, 2⟩) =
      physVal ⟨⟨1, 1⟩, 500⟩ + physVal ⟨⟨1000, 1⟩, 2⟩ ∧
    unitEq (unitAdd ⟨⟨1, 1⟩, 500⟩ ⟨⟨1000, 1⟩, 2⟩) ⟨⟨1, 1⟩, 2500⟩ = true :=
  C3_addition_exact (by decide) (by decide) (by decide) (by decide) 500 2

/-- Claim C4: with integral representations and positive scales,
comparison is exact: `operator==` holds exactly when the rational
physical values `count₁·S1` and `count₂·S2` are equal, and `operator<=>`
orders the quantities exactly as those rational values compare. -/
theorem C4_comparison_exact {s1 s2 : SRatio} (h1 : s1.Normal) (h2 : s2.Normal)
    (p1 : s1.IsPos) (p2 : s2.IsPos) (c1 c2 : Int) :
    (unitEq ⟨s1, c1⟩ ⟨s2, c2⟩ = true ↔ physVal ⟨s1, c1⟩ = physVal ⟨s2, c2⟩) ∧
    (unitCmp ⟨s1, c1⟩ ⟨s2, c2⟩ = Ordering.lt ↔ physVal ⟨s1, c1⟩ < physVal ⟨s2, c2⟩) ∧
    (unitCmp ⟨s1, c1⟩ ⟨s2, c2⟩ = Ordering.eq ↔ physVal ⟨s1, c1⟩ = physVal ⟨s2, c2⟩) ∧
    (unitCmp ⟨s1, c1⟩ ⟨s2, c2⟩ = Ordering.gt ↔ physVal ⟨s2, c2⟩ < physVal ⟨s1, c1⟩) := by
  obtain ⟨_, hcsn, hcsp⟩ := commonScale_spec h1 h2 p1 p2
  have e1 : physVal ⟨commonScale s1 s2, (unitCast (commonScale s1 s2) ⟨s1, c1⟩).count⟩
      = physVal ⟨s1, c1⟩ := physVal_unitCast_common h1 h2 p1 p2 c1
  have e2 : physVal ⟨commonScale s1 s2, (unitCast (commonScale s1 s2) ⟨s2, c2⟩).count⟩
      = physVal ⟨s2, c2⟩ := physVal_unitCast_common2 h1 h2 p1 p2 c2
  have heq : ((unitCast (commonScale s1 s2) ⟨s1, c1⟩).count =
      (unitCast (commonScale s1 s2) ⟨s2, c2⟩).count) ↔
      physVal ⟨s1, c1⟩ = physVal ⟨s2, c2⟩ := by
    rw [← e1, ← e2, physVal_eq_iff hcsp]
  have hlt : ((unitCast (commonScale s1 s2) ⟨s1, c1⟩).count <
      (unitCast (commonScale s1 s2) ⟨s2, c2⟩).count) ↔
      physVal ⟨s1, c1⟩ < physVal ⟨s2, c2⟩ := by
    rw [← e1, ← e2, physVal_lt_iff hcsp]
  have hgt : ((unitCast (commonScale s1 s2) ⟨s2, c2⟩).count <
      (unitCast (commonScale s1 s2) ⟨s1, c1⟩).count) ↔
      physVal ⟨s2, c2⟩ < physVal ⟨s1, c1⟩ := by
    rw [← e1, ← e2, physVal_lt_iff hcsp]
  refine ⟨?_, ?_, ?_, ?_⟩
  · rw [show unitEq ⟨s1, c1⟩ ⟨s2, c2⟩ = true ↔ _ from beq_iff_eq, heq]
  · rw [show unitCmp ⟨s1, c1⟩ ⟨s2, c2⟩ = Ordering.lt ↔ _ from compare_lt_iff_lt, hlt]
  · rw [show unitCmp ⟨s1, c1⟩ ⟨s2, c2⟩ = Ordering.eq ↔ _ from compare_eq_iff_eq, heq]
  · rw [show unitCmp ⟨s1, c1⟩ ⟨s2, c2⟩ = Ordering.gt ↔ _ from compare_gt_iff_gt,
      gt_iff_lt, hgt]

/-- Witness for C4: second(5000) at scale 1 versus second(5) at kilo
scale compare equal; 4999 at scale 1 is strictly below 5 kilo. -/
theorem C4_comparison_exact_witness :
    (unitEq ⟨⟨1, 1⟩, 5000⟩ ⟨⟨1000, 1⟩, 5⟩ = true ↔
      physVal ⟨⟨1, 1⟩, 5000⟩ = physVal ⟨⟨1000, 1⟩, 5⟩) ∧
    (unitCmp ⟨⟨1, 1⟩, 5000⟩ ⟨⟨1000, 1⟩, 5⟩ = Ordering.lt ↔
      physVal ⟨⟨1, 1⟩, 5000⟩ < physVal ⟨⟨1000, 1⟩, 5⟩) ∧
    (unitCmp ⟨⟨1, 1⟩, 5000⟩ ⟨⟨1000, 1⟩, 5⟩ = Ordering.eq ↔
      physVal ⟨⟨1, 1⟩, 5000⟩ = physVal ⟨⟨1000, 1⟩, 5⟩) ∧
    (unitCmp ⟨⟨1, 1⟩, 5000⟩ ⟨⟨1000, 1⟩, 5⟩ = Ordering.gt ↔
      physVal ⟨⟨1000, 1⟩, 5⟩ < physVal ⟨⟨1, 1⟩, 5000⟩) :=
  C4_comparison_exact (by decide) (by decide) (by decide) (by decide) 5000 5

theorem ratioDivide_swap {s1 s2 : SRatio} (p1 : s1.IsPos) (p2 : s2.IsPos) :
    ratioDivide s2 s1 = ⟨(ratioDivide s1 s2).den, (ratioDivide s1 s2).num⟩ := by
  unfold ratioDivide
  rw [show s2.num * s1.den = s1.den * s2.num from mul_comm _ _,
    show s2.den * s1.num = s1.num * s2.den from mul_comm _ _]
  exact ratioNorm_swap (mul_pos p1.1 p2.2) (mul_pos p1.2 p2.1)

/-- The requires clause of the converting constructor from
`unit<Tag, Rep2, Scale2>` (src/units.hpp lines 58-60):
`treat_as_floating_point<Rep>::value ||
 (ratio_divide<Scale2, Scale>::den == 1 && !treat_as_floating_point<Rep2>::value)`,
with a representation modelled by its `treat_as_floating_point` flag. -/
def convCtorOk (fpTo fpFrom : Bool) (fromScale toScale : SRatio) : Prop :=
  fpTo = true ∨ ((ratioDivide fromScale toScale).den = 1 ∧ fpFrom = false)

/-- The converting constructor body (src/units.hpp line 61):
`m_val(unit_cast<unit>(u).count())`. -/
def convCtor (toScale : SRatio) (u : UnitQ) : UnitQ := unitCast toScale u

/-- Claim C5: the converting constructor is available exactly under the
guard `convCtorOk`; whenever it is available with integral source and
target representations, the scale ratio Scale2/Scale is a positive
integer and the constructed count is the source count times exactly that
integer — no truncation, the physical value is preserved. -/
theorem C5_conv_ctor_guard {s1 s2 : SRatio} (h1 : s1.Normal) (h2 : s2.Normal)
    (p1 : s1.IsPos) (p2 : s2.IsPos)
    (havail : convCtorOk false false s1 s2) (c : Int) :
    (ratioDivide s1 s2).den = 1 ∧
    0 < (ratioDivide s1 s2).num ∧
    convCtor s2 ⟨s1, c⟩ = ⟨s2, c * (ratioDivide s1 s2).num⟩ ∧
    physVal (convCtor s2 ⟨s1, c⟩) = physVal ⟨s1, c⟩ := by
  have hden : (ratioDivide s1 s2).den = 1 := by
    rcases havail with h | ⟨h, _⟩
    · exact absurd h (by simp)
    · exact h
  have hRnp := ratioNorm_normal_pos (mul_pos p1.1 p2.2) (mul_pos p1.2 p2.1)
  have hRpos : (ratioDivide s1 s2).IsPos := hRnp.2
  have hval := ratioNorm_val (mul_pos p1.1 p2.2) (mul_pos p1.2 p2.1)
  have hcast : convCtor s2 ⟨s1, c⟩ = ⟨s2, c * (ratioDivide s1 s2).num⟩ := by
    unfold convCtor unitCast
    rw [show (⟨s1, c⟩ : UnitQ).scale = s1 from rfl,
      ratioDivide_swap p1 p2]
    simp only
    rw [hden, Int.tdiv_one]
  refine ⟨hden, hRpos.1, hcast, ?_⟩
  rw [hcast]
  unfold physVal
  simp only
  have hd1 : ((s1.den : ℚ)) ≠ 0 := by exact_mod_cast ne_of_gt p1.2
  have hd2 : ((s2.den : ℚ)) ≠ 0 := by exact_mod_cast ne_of_gt p2.2
  have hn2 : ((s2.num : ℚ)) ≠ 0 := by exact_mod_cast ne_of_gt p2.1
  have hvalQ : ((ratioDivide s1 s2).num : ℚ) * (s1.den * s2.num)
      = s1.num * s2.den := by
    have := hval
    rw [show ratioNorm (s1.num * s2.den) (s1.den * s2.num) = ratioDivide s1 s2 from rfl,
      hden] at this
    push_cast at this
    field_simp at this
    linarith [this]
  field_simp
  linear_combination (c : ℚ) * hvalQ

/-- Witness for C5: kilo source scale into unit target scale at count 7. -/
theorem C5_conv_ctor_guard_witness :
    (ratioDivide ⟨1000, 1⟩ ⟨1, 1⟩).den = 1 ∧
    0 < (ratioDivide ⟨1000, 1⟩ ⟨1, 1⟩).num ∧
    convCtor ⟨1, 1⟩ ⟨⟨1000, 1⟩, 7⟩ = ⟨⟨1, 1⟩, 7 * (ratioDivide ⟨1000, 1⟩ ⟨1, 1⟩).num⟩ ∧
    physVal (convCtor ⟨1, 1⟩ ⟨⟨1000, 1⟩, 7⟩) = physVal ⟨⟨1000, 1⟩, 7⟩ :=
  C5_conv_ctor_guard (by decide) (by decide) (by decide) (by decide)
    (Or.inr ⟨by decide, rfl⟩) 7

/-- Models the body of `unit::operator+=` (src/units.hpp line 76). The
first component is the state of `*this` after the body ran; the second is
the value produced by a `return` statement in the body — `none`, because
the body is `{ m_val += u.m_val; }` with no return statement, although
the operator is declared to return `unit&`. -/
def opAddAssign (u v : UnitQ) : UnitQ × Option UnitQ :=
  (⟨u.scale, u.count + v.count⟩, none)

/-- Models the body of `unit::operator-=` (src/units.hpp line 77); no
return statement. -/
def opSubAssign (u v : UnitQ) : UnitQ × Option UnitQ :=
  (⟨u.scale, u.count - v.count⟩, none)

/-- Models the body of `unit::operator*=` by a scalar (src/units.hpp
line 78); no return statement. -/
def opMulAssign (u : UnitQ) (v : Int) : UnitQ × Option UnitQ :=
  (⟨u.scale, u.count * v⟩, none)

/-- Models the body of `unit::operator/=` by a scalar (src/units.hpp
line 79); no return statement. -/
def opDivAssign (u : UnitQ) (v : Int) : UnitQ × Option UnitQ :=
  (⟨u.scale, u.count.tdiv v⟩, none)

/-- Models the body of `unit::operator%=` by a quantity (src/units.hpp
line 80); no return statement. -/
def opModAssignQ (u v : UnitQ) : UnitQ × Option UnitQ :=
  (⟨u.scale, Int.tmod u.count v.count⟩, none)

/-- Models the body of `unit::operator%=` by a scalar (src/units.hpp
line 81); no return statement. -/
def opModAssignS (u : UnitQ) (v : Int) : UnitQ × Option UnitQ :=
  (⟨u.scale, Int.tmod u.count v⟩, none)

/-- Claim C8, evaluated at concrete failing inputs: every compound
assignment body does update the stored count in place by the
corresponding arithmetic operation, but none of them produces a return
value — each body lacks a return statement despite the declared `unit&`
return type, so no valid reference to the updated quantity is yielded. -/
theorem C8_compound_assign_missing_return :
    opAddAssign ⟨⟨1, 1⟩, 1⟩ ⟨⟨1, 1⟩, 2⟩ = (⟨⟨1, 1⟩, 3⟩, none) ∧
    opSubAssign ⟨⟨1, 1⟩, 5⟩ ⟨⟨1, 1⟩, 2⟩ = (⟨⟨1, 1⟩, 3⟩, none) ∧
    opMulAssign ⟨⟨1, 1⟩, 3⟩ 2 = (⟨⟨1, 1⟩, 6⟩, none) ∧
    opDivAssign ⟨⟨1, 1⟩, 6⟩ 2 = (⟨⟨1, 1⟩, 3⟩, none) ∧
    opModAssignQ ⟨⟨1, 1⟩, 3⟩ ⟨⟨1, 1⟩, 2⟩ = (⟨⟨1, 1⟩, 1⟩, none) ∧
    opModAssignS ⟨⟨1, 1⟩, 3⟩ 2 = (⟨⟨1, 1⟩, 1⟩, none) := by
  decide

/-- Claim C10: `unit_cast` is constrained only by tag sameness, not by
the narrowing guard: it is defined at every pair of same-tag scales, and
when the target scale is coarse enough relative to the count it silently
truncates a nonzero count to zero — while the converting constructor's
guard (`convCtorOk`, integral representations) rejects that very pair. -/
theorem C10_unit_cast_unguarded {s1 s2 : SRatio} (h1 : s1.Normal) (h2 : s2.Normal)
    (p1 : s1.IsPos) (p2 : s2.IsPos) (c : Int) (hc : 0 < c)
    (hsmall : c * (ratioDivide s2 s1).den < (ratioDivide s2 s1).num) :
    unitCast s2 ⟨s1, c⟩ = ⟨s2, 0⟩ ∧ ¬ convCtorOk false false s1 s2 := by
  have hRnp := ratioNorm_normal_pos (mul_pos p2.1 p1.2) (mul_pos p2.2 p1.1)
  have hRpos : (ratioDivide s2 s1).IsPos := hRnp.2
  constructor
  · unfold unitCast
    rw [show (⟨s1, c⟩ : UnitQ).scale = s1 from rfl]
    simp only
    rw [Int.tdiv_eq_zero_of_lt (le_of_lt (mul_pos hc hRpos.2)) hsmall]
  · rintro (h | ⟨hden, _⟩)
    · exact absurd h (by simp)
    · rw [ratioDivide_swap p2 p1] at hden
      have hnum : (ratioDivide s2 s1).num = 1 := hden
      have : 1 ≤ c * (ratioDivide s2 s1).den := by nlinarith [hRpos.2]
      omega

/-- Witness for C10: casting 999 milli (scale 1/1000) to unit scale
yields 0; the constructor guard rejects that conversion. -/
theorem C10_unit_cast_unguarded_witness :
    unitCast ⟨1, 1⟩ ⟨⟨1, 1000⟩, 999⟩ = ⟨⟨1, 1⟩, 0⟩ ∧
    ¬ convCtorOk false false ⟨1, 1000⟩ ⟨1, 1⟩ :=
  C10_unit_cast_unguarded (by decide) (by decide) (by decide) (by decide) 999
    (by decide) (by decide)

/-- Dimension tags declared by the repository's test program
(src/test.cpp lines 3-6): `second_t` (duration unit), `hz_t`, `joule_t`,
`watt_t`. -/
inductive BTag
  | second_t
  | hz_t
  | joule_t
  | watt_t
deriving DecidableEq, Repr

/-- A dimension-tag template argument: `some` declared tag, or `none`
for the `void` dimensionless marker. -/
abbrev TagU := Option BTag

/-- Models the `su::ops::mul` relation table: the built-in
specializations for `void` (src/units.hpp lines 126-136) together with
the entries generated by `SU_MUL(second_t, watt_t, joule_t)` and
`SU_INV(second_t, hz_t)` (src/test.cpp lines 8-9, SU_MUL at
src/units.hpp lines 9-22).  Result `none` models the primary template
(no `type` member — the operator does not compile); `some none` is the
`void` result; `some (some t)` a tagged result. -/
def opsMul : TagU → TagU → Option TagU
  | some .second_t, some .watt_t => some (some .joule_t)
  | some .watt_t, some .second_t => some (some .joule_t)
  | some .second_t, some .hz_t => some none
  | some .hz_t, some .second_t => some none
  | t, none => some t
  | none, t => some t
  | _, _ => none

/-- Models the `su::ops::div` relation table (src/units.hpp lines
138-146, plus the `div` entries from the two relation declarations in
src/test.cpp).  `div<T, T>` yields `void`; `div<T, void>` yields `T`;
the pair `(void, void)` matches two partial specializations ambiguously
in C++ and does not compile, hence `none`. -/
def opsDiv : TagU → TagU → Option TagU
  | some .joule_t, some .second_t => some (some .watt_t)
  | some .joule_t, some .watt_t => some (some .second_t)
  | none, some .second_t => some (some .hz_t)
  | none, some .hz_t => some (some .second_t)
  | some t, some t' => if t = t' then some none else none
  | some t, none => some (some t)
  | _, _ => none

/-- A tagged quantity, for the dimension-changing operators. -/
structure TUnit where
  tag : TagU
  scale : SRatio
  count : Int
deriving DecidableEq, Repr

/-- Models `operator*` on two quantities (src/units.hpp lines 149-160):
requires a registered `ops::mul` entry; on a `void` result, fold the
combined scale into the raw product `(v * S::num) / S::den` and return a
plain number; otherwise return a quantity of the result tag with scale
`ratio_multiply<Scale1, Scale2>` and the product count. -/
def opMul (a b : TUnit) : Option (TUnit ⊕ Int) :=
  match opsMul a.tag b.tag with
  | none => none
  | some none =>
      some (Sum.inr ((a.count * b.count * (ratioMultiply a.scale b.scale).num).tdiv
        (ratioMultiply a.scale b.scale).den))
  | some (some t) =>
      some (Sum.inl ⟨some t, ratioMultiply a.scale b.scale, a.count * b.count⟩)

/-- Models `operator/` on two quantities (src/units.hpp lines 175-185):
requires a registered `ops::div` entry; on a `void` result, return the
plain number `(S::num * a.count()) / (S::den * b.count())` with
`S = ratio_divide<Scale1, Scale2>`; otherwise a quantity of the result
tag with the quotient scale and the quotient count. -/
def opDiv (a b : TUnit) : Option (TUnit ⊕ Int) :=
  match opsDiv a.tag b.tag with
  | none => none
  | some none =>
      some (Sum.inr (((ratioDivide a.scale b.scale).num * a.count).tdiv
        ((ratioDivide a.scale b.scale).den * b.count)))
  | some (some t) =>
      some (Sum.inl ⟨some t, ratioDivide a.scale b.scale, a.count.tdiv b.count⟩)

/-- Physical value of a tagged quantity. -/
def physValT (u : TUnit) : ℚ := (u.count : ℚ) * ((u.scale.num : ℚ) / (u.scale.den : ℚ))

/-- Claim C6: from the single declaration `SU_MUL(second_t, watt_t,
joule_t)`, all four implied operations exist and behave symmetrically:
both products yield a joule-tagged quantity with product count and
product scale — hence the physical value of the product equals the
product of the operands' physical values, independent of the operands'
scale representations — and dividing a joule-tagged quantity by a
second-tagged (resp. watt-tagged) one yields a watt-tagged (resp.
second-tagged) quantity with quotient scale and quotient count. -/
theorem C6_mul_relation_symmetric {s1 s2 : SRatio} (h1 : s1.Normal) (h2 : s2.Normal)
    (p1 : s1.IsPos) (p2 : s2.IsPos) (c1 c2 : Int) (s3 : SRatio) (c3 : Int) :
    (opMul ⟨some .second_t, s1, c1⟩ ⟨some .watt_t, s2, c2⟩ =
      some (Sum.inl ⟨some .joule_t, ratioMultiply s1 s2, c1 * c2⟩)) ∧
    (opMul ⟨some .watt_t, s2, c2⟩ ⟨some .second_t, s1, c1⟩ =
      some (Sum.inl ⟨some .joule_t, ratioMultiply s2 s1, c2 * c1⟩)) ∧
    physValT ⟨some .joule_t, ratioMultiply s1 s2, c1 * c2⟩ =
      physValT ⟨some .second_t, s1, c1⟩ * physValT ⟨some .watt_t, s2, c2⟩ ∧
    (opDiv ⟨some .joule_t, s3, c3⟩ ⟨some .second_t, s1, c1⟩ =
      some (Sum.inl ⟨some .watt_t, ratioDivide s3 s1, c3.tdiv c1⟩)) ∧
    (opDiv ⟨some .joule_t, s3, c3⟩ ⟨some .watt_t, s2, c2⟩ =
      some (Sum.inl ⟨some .second_t, ratioDivide s3 s2, c3.tdiv c2⟩)) := by
  refine ⟨rfl, rfl, ?_, rfl, rfl⟩
  unfold physValT
  simp only
  rw [show ratioMultiply s1 s2 = ratioNorm (s1.num * s2.num) (s1.den * s2.den) from rfl,
    ratioNorm_val (mul_pos p1.1 p2.1) (mul_pos p1.2 p2.2)]
  push_cast
  ring

/-- Witness for C6 at kilo and milli scales with counts 3, 2 and a unit
scale joule count 7. -/
theorem C6_mul_relation_symmetric_witness :
    (opMul ⟨some .second_t, ⟨1000, 1⟩, 3⟩ ⟨some .watt_t, ⟨1, 1000⟩, 2⟩ =
      some (Sum.inl ⟨some .joule_t, ratioMultiply ⟨1000, 1⟩ ⟨1, 1000⟩, 3 * 2⟩)) ∧
    (opMul ⟨some .watt_t, ⟨1, 1000⟩, 2⟩ ⟨some .second_t, ⟨1000, 1⟩, 3⟩ =
      some (Sum.inl ⟨some .joule_t, ratioMultiply ⟨1, 1000⟩ ⟨1000, 1⟩, 2 * 3⟩)) ∧
    physValT ⟨some .joule_t, ratioMultiply ⟨1000, 1⟩ ⟨1, 1000⟩, 3 * 2⟩ =
      physValT ⟨some .second_t, ⟨1000, 1⟩, 3⟩ * physValT ⟨some .watt_t, ⟨1, 1000⟩, 2⟩ ∧
    (opDiv ⟨some .joule_t, ⟨1, 1⟩, 7⟩ ⟨some .second_t, ⟨1000, 1⟩, 3⟩ =
      some (Sum.inl ⟨some .watt_t, ratioDivide ⟨1, 1⟩ ⟨1000, 1⟩, Int.tdiv 7 3⟩)) ∧
    (opDiv ⟨some .joule_t, ⟨1, 1⟩, 7⟩ ⟨some .watt_t, ⟨1, 1000⟩, 2⟩ =
      some (Sum.inl ⟨some .second_t, ratioDivide ⟨1, 1⟩ ⟨1, 1000⟩, Int.tdiv 7 2⟩)) :=
  C6_mul_relation_symmetric (by decide) (by decide) (by decide) (by decide)
    3 2 ⟨1, 1⟩ 7

/-- Claim C7: when the dimension relation yields the dimensionless
marker, the result is a plain number of the promoted representation with
the combined scale folded in: for tags whose registered product is
`void`, `a * b = (a.count · b.count · num) / den` where `num/den` is
`S1 · S2` reduced; for two quantities of the same tag,
`a / b = (num · a.count) / (den · b.count)` where `num/den` is `S1/S2`
reduced; in particular kilowatt(2) / watt(500) equals the integer 4. -/
theorem C7_dimensionless_plain_number (a b : TUnit)
    (hmul : opsMul a.tag b.tag = some none)
    (c d : TUnit) (t : BTag) (hc : c.tag = some t) (hd : d.tag = some t) :
    opMul a b = some (Sum.inr
      ((a.count * b.count * (ratioMultiply a.scale b.scale).num).tdiv
        (ratioMultiply a.scale b.scale).den)) ∧
    opDiv c d = some (Sum.inr
      (((ratioDivide c.scale d.scale).num * c.count).tdiv
        ((ratioDivide c.scale d.scale).den * d.count))) ∧
    opDiv ⟨some .watt_t, ⟨1000, 1⟩, 2⟩ ⟨some .watt_t, ⟨1, 1⟩, 500⟩ =
      some (Sum.inr 4) := by
  refine ⟨?_, ?_, by decide⟩
  · unfold opMul
    rw [hmul]
  · have hdd : opsDiv (some t) (some t) = some none := by
      cases t <;> rfl
    unfold opDiv
    rw [hc, hd, hdd]

/-- Witness for C7: second(3) at kilo scale times hz(2) at milli scale
(inverse-declared pair), and the kilowatt/watt division. -/
theorem C7_dimensionless_plain_number_witness :
    opMul ⟨some .second_t, ⟨1000, 1⟩, 3⟩ ⟨some .hz_t, ⟨1, 1000⟩, 2⟩ =
      some (Sum.inr
        ((3 * 2 * (ratioMultiply ⟨1000, 1⟩ ⟨1, 1000⟩).num).tdiv
          (ratioMultiply ⟨1000, 1⟩ ⟨1, 1000⟩).den)) ∧
    opDiv ⟨some .watt_t, ⟨1000, 1⟩, 2⟩ ⟨some .watt_t, ⟨1, 1⟩, 500⟩ =
      some (Sum.inr
        (((ratioDivide ⟨1000, 1⟩ ⟨1, 1⟩).num * 2).tdiv
          ((ratioDivide ⟨1000, 1⟩ ⟨1, 1⟩).den * 500))) ∧
    opDiv ⟨some .watt_t, ⟨1000, 1⟩, 2⟩ ⟨some .watt_t, ⟨1, 1⟩, 500⟩ =
      some (Sum.inr 4) :=
  C7_dimensionless_plain_number
    ⟨some .second_t, ⟨1000, 1⟩, 3⟩ ⟨some .hz_t, ⟨1, 1000⟩, 2⟩ rfl
    ⟨some .watt_t, ⟨1000, 1⟩, 2⟩ ⟨some .watt_t, ⟨1, 1⟩, 500⟩ .watt_t rfl rfl

theorem ratioNorm_self {a : Int} (ha : 0 < a) : ratioNorm a a = ⟨1, 1⟩ := by
  unfold ratioNorm
  rw [Int.sign_eq_one_of_pos ha, mul_one, cppAbs_of_pos ha, Int.gcd_self,
    Int.natAbs_of_nonneg (le_of_lt ha), Int.tdiv_self (ne_of_gt ha)]

theorem ratioDivide_self {s : SRatio} (hp : s.IsPos) :
    ratioDivide s s = ⟨1, 1⟩ := by
  unfold ratioDivide
  rw [show s.den * s.num = s.num * s.den from mul_comm _ _]
  exact ratioNorm_self (mul_pos hp.1 hp.2)

/-- Models a `std::chrono::duration<Rep2, Scale2>` value at an integral
representation: the tick period and the tick count. -/
structure CDuration where
  period : SRatio
  count : Int
deriving DecidableEq, Repr

/-- Models `std::chrono::duration_cast` between integral-representation
durations.  This is host-library behaviour (the `<chrono>` collaborator,
not part of src/), embedded from the C++ standard: with
`CF = ratio_divide<PeriodFrom, PeriodTo>`, the new count is
`count * CF::num / CF::den`, computed in the widened common
representation with truncating division. -/
def durationCast (toPeriod : SRatio) (d : CDuration) : CDuration :=
  ⟨toPeriod, (d.count * (ratioDivide d.period toPeriod).num).tdiv
    (ratioDivide d.period toPeriod).den⟩

/-- The `su::is_duration_type` flag: specialized to true for `second_t`
by `SU_DURATION_UNIT(second_t, "s")` (src/test.cpp line 3, macro at
src/units.hpp lines 27-32), false otherwise (src/units.hpp lines 40-41). -/
def isDurationType : TagU → Bool
  | some .second_t => true
  | _ => false

/-- Models `unit::operator std::chrono::duration<Rep2, Scale2>`
(src/units.hpp lines 92-96), available only when the tag is
duration-compatible: the duration whose count is
`unit_cast<unit<Tag, Rep2, Scale2>>(*this).count()`. -/
def toDuration (p : SRatio) (u : TUnit) : CDuration :=
  ⟨p, (unitCast p ⟨u.scale, u.count⟩).count⟩

/-- Models the converting constructor from a `std::chrono::duration`
(src/units.hpp lines 63-67), available only when the tag is
duration-compatible and the narrowing guard holds: `m_val` is
`duration_cast<duration<Rep, Scale>>(d).count()`. -/
def fromDuration (t : TagU) (s : SRatio) (d : CDuration) : TUnit :=
  ⟨t, s, (durationCast s d).count⟩

/-- Claim C9: for a duration-compatible tag, an integral representation
and any scale, converting a quantity to the host duration type with the
same representation and tick ratio and then constructing a quantity back
from that duration yields the original quantity unchanged. -/
theorem C9_duration_round_trip (u : TUnit) (hdur : isDurationType u.tag = true)
    (hs : u.scale.IsPos) :
    fromDuration u.tag u.scale (toDuration u.scale u) = u := by
  unfold fromDuration toDuration durationCast unitCast
  simp only [ratioDivide_self hs]
  simp only [Int.tdiv_one, mul_one]

/-- Witness for C9: second(5) survives the round trip. -/
theorem C9_duration_round_trip_witness :
    fromDuration (some BTag.second_t) ⟨1, 1⟩
      (toDuration ⟨1, 1⟩ ⟨some BTag.second_t, ⟨1, 1⟩, 5⟩) =
      ⟨some BTag.second_t, ⟨1, 1⟩, 5⟩ :=
  C9_duration_round_trip ⟨some BTag.second_t, ⟨1, 1⟩, 5⟩ rfl (by decide)
